import Mathlib

/-!
# Verification of the Inheritage SDK request/response core

Shallow embedding of `src/client.ts` of the Inheritage TypeScript SDK:
the query serializer, header preparation, body encoding, rate-limit and
Retry-After parsing, content-type inference, the response classification
performed by `InheritageClient.send`, the NDJSON record parser used by
`getAIVectorIndex`, the client constructor, and the duplicated
CIDOC/LIDO endpoint methods.

Modelling conventions:
* JavaScript strings are Lean `String`s; machine numbers that the client
  manipulates (rate-limit counters, epoch seconds, retry delays) are
  integers, so JS numbers are modelled as `Int`.
* `Headers` objects are association lists with names stored lowercased
  (JS `Headers` normalizes names case-insensitively); `Headers.set`
  replaces the first matching entry and drops later duplicates, and
  `Headers.get` joins duplicate entries with `", "`.
* `URLSearchParams` objects are association lists of string pairs with
  the `set`/`append` semantics of the web API.
* JS builtins that are not part of this repository (`JSON.parse`,
  `Date` parsing) are passed in as explicit function parameters; the
  string-to-number coercion `Number(s)` is modelled by `jsNumber`,
  covering the optionally-signed decimal-integer fragment that the API
  contract uses (every call site guards the empty string behind a JS
  falsiness check first, so mapping `""` to `none` is behaviorally
  equivalent).
-/

namespace InheritageSDK

/-! ### Kernel-computable string primitives

The JS string builtins the client uses (`toLowerCase`, `includes`,
`startsWith`, `endsWith`, `trim`, splitting on line breaks, joining)
are modelled by structural-recursive functions over the character list
so that every concrete run reduces inside the kernel. -/

/-- JS `toLowerCase` (ASCII range, which is all the client lowercases:
content types and header names). -/
def sToLower (s : String) : String :=
  ⟨s.data.map Char.toLower⟩

/-- Prefix test on character lists. -/
def listIsPrefix : List Char → List Char → Bool
  | [], _ => true
  | _ :: _, [] => false
  | a :: as, b :: bs => a == b && listIsPrefix as bs

/-- Substring occurrence test on character lists. -/
def hasSubstring : List Char → List Char → Bool
  | [], pat => pat.isEmpty
  | s@(_ :: rest), pat => listIsPrefix pat s || hasSubstring rest pat

/-- JS `s.startsWith(pat)`. -/
def sStartsWith (s pat : String) : Bool :=
  listIsPrefix pat.data s.data

/-- JS `s.endsWith(pat)`. -/
def sEndsWith (s pat : String) : Bool :=
  listIsPrefix pat.data.reverse s.data.reverse

/-- The whitespace characters relevant to the strings this client
trims. -/
def isJsSpace (c : Char) : Bool :=
  c = ' ' || c = '\t' || c = '\n' || c = '\r'

/-- JS `s.trim()`. -/
def jsTrim (s : String) : String :=
  ⟨((s.data.dropWhile isJsSpace).reverse.dropWhile isJsSpace).reverse⟩

/-- Split on a separator character. -/
def splitCharAux (sep : Char) : List Char → List Char → List String
  | [], cur => [⟨cur.reverse⟩]
  | c :: rest, cur =>
    if c = sep then (⟨cur.reverse⟩ : String) :: splitCharAux sep rest []
    else splitCharAux sep rest (c :: cur)

/-- Split a string at every newline (the `/\r?\n/` split of
`parseNdjsonRecords`: every `\n` splits, and each fragment's stray
`\r` is removed by the `trim` that immediately follows). -/
def splitNl (s : String) : List String :=
  splitCharAux '\n' s.data []

/-- Join with `", "` (the JS `Headers.get` duplicate-combining rule). -/
def joinCommaSpace : List String → String
  | [] => ""
  | [v] => v
  | v :: vs => v ++ ", " ++ joinCommaSpace vs

/-- A JavaScript runtime value as far as the client inspects it: the
result of `response.json()` / `response.text()` / `response.arrayBuffer()`
and the fields read off parsed error bodies.  `obj` represents a plain
object with unique keys (`JSON.parse` collapses duplicates), `buf` an
`ArrayBuffer`. -/
inductive JsValue where
  | null
  | str (s : String)
  | num (n : Int)
  | bool (b : Bool)
  | arr (elems : List JsValue)
  | obj (fields : List (String × JsValue))
  | buf (bytes : List Nat)

/-- One element of an array query value.  The declared TS type of the
query mapping is `Record<string, string | number | boolean | null |
undefined>` — scalars only — and the runtime array branch stringifies
each element with `String(entry)`, so elements are scalar values. -/
inductive QueryElem where
  | null
  | undef
  | str (s : String)
  | num (n : Int)
  | bool (b : Bool)
deriving DecidableEq, Repr

/-- A value of the query mapping handed to `serializeQuery`: the
declared scalar types plus the array case the implementation handles at
runtime. -/
inductive QueryVal where
  | null
  | undef
  | str (s : String)
  | num (n : Int)
  | bool (b : Bool)
  | arr (elems : List QueryElem)
deriving DecidableEq, Repr

/-- `entry === null || entry === undefined` on an array element. -/
def elemIsNullish : QueryElem → Bool
  | .null => true
  | .undef => true
  | _ => false

/-- JS `String(value)` coercion on an array element. -/
def jsStrOfElem : QueryElem → String
  | .null => "null"
  | .undef => "undefined"
  | .str s => s
  | .num n => toString n
  | .bool b => if b then "true" else "false"

/-- Comma-join for `Array.prototype.toString`. -/
def commaJoin : List String → String
  | [] => ""
  | [v] => v
  | v :: vs => v ++ "," ++ commaJoin vs

/-- JS `String(value)` coercion for query values.  Arrays stringify as
their comma-joined elements with nullish entries contributing the empty
string (`Array.prototype.toString`). -/
def jsStrOf : QueryVal → String
  | .null => "null"
  | .undef => "undefined"
  | .str s => s
  | .num n => toString n
  | .bool b => if b then "true" else "false"
  | .arr xs =>
    commaJoin (xs.map (fun e =>
      match e with
      | .null => ""
      | .undef => ""
      | e => jsStrOfElem e))

/-- `URLSearchParams` contents: ordered key/value pairs. -/
abbrev SearchParams := List (String × String)

/-- `URLSearchParams.delete(k)`: remove every pair with that key. -/
def spDelete (sp : SearchParams) (k : String) : SearchParams :=
  sp.filter (fun p => p.1 ≠ k)

/-- `URLSearchParams.set(k, v)`: replace the value at the first
occurrence of `k` (dropping later duplicates), else append at the end. -/
def spSet : SearchParams → String → String → SearchParams
  | [], k, v => [(k, v)]
  | (k', v') :: rest, k, v =>
    if k' = k then (k, v) :: spDelete rest k
    else (k', v') :: spSet rest k v

/-- One step of `serializeQuery`'s inner `forEach` over an array value:
nullish entries are skipped, the rest appended as `key=String(entry)`. -/
def serArrStep (key : String) (search : SearchParams) (entry : QueryElem) : SearchParams :=
  if elemIsNullish entry then search else search ++ [(key, jsStrOfElem entry)]

/-- One step of `serializeQuery`'s `Object.entries(...).forEach`:
nullish values skipped, arrays appended entry by entry, scalars set. -/
def serStep (search : SearchParams) (kv : String × QueryVal) : SearchParams :=
  match kv.2 with
  | .null => search
  | .undef => search
  | .arr xs => xs.foldl (serArrStep kv.1) search
  | v => spSet search kv.1 (jsStrOf v)

/-- `serializeQuery` (client.ts lines 111-126): build a `URLSearchParams`
from an optional query mapping. -/
def serializeQuery : Option (List (String × QueryVal)) → SearchParams
  | none => []
  | some ps => ps.foldl serStep []

/-- The query portion of the URL `send` dispatches (client.ts lines
886-894): when a query mapping is present and serializes to at least one
pair, each serialized pair is copied into the URL's (initially empty for
every path this client builds — no call site puts `?` in a path) search
params with `URLSearchParams.set`. -/
def sendUrlQuery (query : Option (List (String × QueryVal))) : SearchParams :=
  match query with
  | none => []
  | some ps =>
    let q := serializeQuery (some ps)
    if 0 < q.length then q.foldl (fun existing kv => spSet existing kv.1 kv.2) []
    else []

/-- JS `Headers` contents: ordered name/value pairs, names lowercased. -/
abbrev HList := List (String × String)

/-- `Headers.set`: names are normalized to lowercase. -/
def hSet (h : HList) (k v : String) : HList :=
  spSet h (sToLower k) v

/-- `Headers.has`. -/
def hHas (h : HList) (k : String) : Bool :=
  h.any (fun p => p.1 = sToLower k)

/-- `Headers.get`: `null` when the name is absent, otherwise the values
joined with `", "`. -/
def hGet (h : HList) (k : String) : Option String :=
  match (h.filter (fun p => p.1 = sToLower k)).map Prod.snd with
  | [] => none
  | vs => some (joinCommaSpace vs)

/-- Fold a list of header pairs into an existing `Headers` with `set`
(the `defaults.forEach((value, key) => headers.set(key, value))` pattern
the client uses for merging). -/
def hMerge (base : HList) (extra : Option HList) : HList :=
  match extra with
  | none => base
  | some ds => ds.foldl (fun acc kv => hSet acc kv.1 kv.2) base

/-- The optionally-signed decimal-digit fragment of JS `Number(string)`
(see the modelling note in the file header). -/
def digitsVal (cs : List Char) : Option Nat :=
  cs.foldl
    (fun acc c =>
      match acc with
      | some n => if '0' ≤ c ∧ c ≤ '9' then some (n * 10 + (c.toNat - '0'.toNat)) else none
      | none => none)
    (some 0)

/-- JS `Number(s)` on the strings this client feeds it, as an integer
parse; `none` plays the role of `NaN`. -/
def jsNumber (s : String) : Option Int :=
  match (jsTrim s).data with
  | [] => none
  | '-' :: rest => if rest.isEmpty then none else (digitsVal rest).map (fun n => -(n : Int))
  | '+' :: rest => if rest.isEmpty then none else (digitsVal rest).map (fun n => (n : Int))
  | cs => (digitsVal cs).map (fun n => (n : Int))

/-- Parsed rate-limit triple (`RateLimitInfo` in types.ts). -/
structure RateLimitInfo where
  limit : Int
  remaining : Int
  reset : Int
deriving DecidableEq, Repr

/-- `toRateLimit` (client.ts lines 81-95): all three headers must be
present and truthy (the `!limit || !remaining || !reset` guard rejects
absent *and* empty values), then all three must coerce to numbers. -/
def toRateLimit (headers : HList) : Option RateLimitInfo :=
  match hGet headers "X-RateLimit-Limit", hGet headers "X-RateLimit-Remaining",
      hGet headers "X-RateLimit-Reset" with
  | some l, some r, some t =>
    if l = "" ∨ r = "" ∨ t = "" then none
    else
      match jsNumber l, jsNumber r, jsNumber t with
      | some ln, some rn, some tn => some ⟨ln, rn, tn⟩
      | _, _, _ => none
  | _, _, _ => none

/-- The ambient JS environment of a call: `Date` parsing (milliseconds
since epoch, `none` for an invalid date) and `Date.now()`, both JS
builtins external to the repository. -/
structure JsEnv where
  dateParse : String → Option Int
  now : Int

/-- `Math.ceil(a / 1000)` for an integer numerator. -/
def jsCeil1000 (a : Int) : Int :=
  Int.fdiv (a + 999) 1000

/-- `parseRetryAfter` (client.ts lines 97-109): absent or empty header
gives no hint; a numeric value is returned directly; otherwise a
parseable date yields seconds-from-now, ceiled, floored at zero. -/
def parseRetryAfter (env : JsEnv) (headers : HList) : Option Int :=
  match hGet headers "Retry-After" with
  | none => none
  | some retry =>
    if retry = "" then none
    else
      match jsNumber retry with
      | some n => some n
      | none =>
        match env.dateParse retry with
        | some t => some (max 0 (jsCeil1000 (t - env.now)))
        | none => none

/-- The three decoding strategies of `send`. -/
inductive RespType where
  | json
  | text
  | arrayBuffer
deriving DecidableEq, Repr

/-- `s.includes(pat)`. -/
def strIncludes (s pat : String) : Bool :=
  hasSubstring s.data pat.data

/-- `inferResponseType` (client.ts lines 128-151). -/
def inferResponseType (contentType : String) : RespType :=
  let normalized := sToLower contentType
  if normalized = "" then .text
  else if strIncludes normalized "application/zip" || strIncludes normalized "application/octet-stream" then
    .arrayBuffer
  else if strIncludes normalized "application/x-ndjson" || strIncludes normalized "application/jsonl" then
    .text
  else if strIncludes normalized "application/json" || strIncludes normalized "+json" then
    .json
  else if sStartsWith normalized "text/" || strIncludes normalized "application/xml" then
    .text
  else .text

/-- The `finalType` computation of `send` (client.ts lines 940-943): a
caller hint may force text/binary, except JSON inference always wins. -/
def finalResponseType (inferred : RespType) (hint : Option RespType) : RespType :=
  if inferred = .json then .json else hint.getD inferred

/-! ## Client configuration and construction -/

def DEFAULT_BASE_URL : String := "https://inheritage.foundation/api/v1"
def ATTRIBUTION_VISIBLE : String := "visible"
def ATTRIBUTION_SUPPRESSED : String := "suppressed"
def PLAN_PUBLIC : String := "public"
def PLAN_COMMERCIAL : String := "commercial"

/-- `InheritageClientOptions` (the `fetch` implementation and the
`signal`/`cache` plumbing are runtime I/O objects with no data the
claims touch and are not modelled). -/
structure ClientOptions where
  baseUrl : Option String := none
  attribution : Option String := none
  plan : Option String := none
  userAgent : Option String := none
  defaultHeaders : Option HList := none

/-- The immutable per-client state the constructor establishes. -/
structure ClientConfig where
  baseUrl : String
  attribution : String
  plan : String
  baseHeaders : HList
deriving DecidableEq, Repr

/-- `s.replace(/\/+$/, "")`. -/
def stripTrailingSlashes (s : String) : String :=
  ⟨(s.data.reverse.dropWhile (fun c => c = '/')).reverse⟩

/-- `s.replace(/^\/+/, "")`. -/
def stripLeadingSlashes (s : String) : String :=
  ⟨s.data.dropWhile (fun c => c = '/')⟩

/-- The `InheritageClient` constructor (client.ts lines 176-206):
normalizes the base URL, defaults attribution/plan, rejects
`suppressed` attribution without the commercial plan by throwing
(before any network access is possible), and assembles the baseline
header set.  The configuration is never mutated afterwards (all the
fields are `private readonly`). -/
def mkClient (options : ClientOptions) : Except String ClientConfig :=
  let baseUrl := stripTrailingSlashes (options.baseUrl.getD DEFAULT_BASE_URL)
  let attribution := options.attribution.getD ATTRIBUTION_VISIBLE
  let plan := options.plan.getD PLAN_PUBLIC
  if attribution = ATTRIBUTION_SUPPRESSED ∧ plan ≠ PLAN_COMMERCIAL then
    .error "Attribution mode `suppressed` requires `plan: \x22commercial\x22`. Falling back to the public tier will break the session contract."
  else
    let h := hSet [] "Accept" "application/json"
    let h := hSet h "X-Inheritage-Attribution" attribution
    let h := if plan = PLAN_COMMERCIAL then hSet h "X-Inheritage-Plan" PLAN_COMMERCIAL else h
    let h := hSet h "User-Agent"
      (options.userAgent.getD "inheritage-sdk/0.1 (+https://inheritage.foundation/docs/api)")
    let h := hMerge h options.defaultHeaders
    .ok { baseUrl, attribution, plan, baseHeaders := h }

/-! ## Request descriptors, bodies and headers -/

/-- A request body as `send`/`prepareHeaders` discriminate it:
the five raw transport-compatible forms, and `jsonVal` for every other
JS value (which gets JSON-encoded). -/
inductive BodyVal where
  | str (s : String)
  | searchParams (sp : SearchParams)
  | formData (entries : List (String × String))
  | blob (bytes : List Nat)
  | arrayBuffer (bytes : List Nat)
  | jsonVal (v : JsValue)

/-- The `instanceof` chain of `send` (client.ts line 907): bodies that
pass through to the transport untouched. -/
def isRawBody : BodyVal → Bool
  | .str _ => true
  | .searchParams _ => true
  | .formData _ => true
  | .blob _ => true
  | .arrayBuffer _ => true
  | .jsonVal _ => false

/-- The exclusion check of `prepareHeaders` (client.ts line 1003):
`!(body instanceof FormData) && !(body instanceof Blob) &&
!(body instanceof ArrayBuffer) && typeof body !== "string"`.
Note this list omits `URLSearchParams`, unlike `isRawBody`. -/
def bodyTriggersJsonContentType : BodyVal → Bool
  | .formData _ => false
  | .blob _ => false
  | .arrayBuffer _ => false
  | .str _ => false
  | .searchParams _ => true
  | .jsonVal _ => true

/-- The internal `RequestOptions` descriptor `send` receives.  A `none`
body covers both `undefined` and `null` (both skip the payload and the
Content-Type logic identically). -/
structure RequestDescriptor where
  method : String
  path : String
  query : Option (List (String × QueryVal)) := none
  body : Option BodyVal := none
  headers : Option HList := none
  responseType : Option RespType := none
  ifNoneMatch : Option String := none
  ifModifiedSince : Option String := none

/-- `prepareHeaders` (client.ts lines 993-1009): copy the baseline
headers, overlay per-call overrides, then auto-set the JSON
Content-Type when a body is present, no Content-Type exists yet, and
the body passes `bodyTriggersJsonContentType`. -/
def prepareHeaders (cfg : ClientConfig) (overrides : Option HList) (body : Option BodyVal) : HList :=
  let headers := hMerge cfg.baseHeaders overrides
  match body with
  | none => headers
  | some b =>
    if ¬ hHas headers "Content-Type" ∧ bodyTriggersJsonContentType b then
      hSet headers "Content-Type" "application/json; charset=utf-8"
    else headers

/-- What `send` hands to `fetch` as the request body. -/
inductive Payload where
  | undef
  | raw (b : BodyVal)
  | jsonEncoded (v : JsValue)

/-- The body-encoding block of `send` (client.ts lines 905-915): raw
forms pass through; anything else is JSON-encoded and, when no
Content-Type exists yet, the JSON Content-Type is set. -/
def preparePayload (body : Option BodyVal) (headers : HList) : Payload × HList :=
  match body with
  | none => (.undef, headers)
  | some (.jsonVal v) =>
    let headers :=
      if hHas headers "Content-Type" then headers
      else hSet headers "Content-Type" "application/json; charset=utf-8"
    (.jsonEncoded v, headers)
  | some b => (.raw b, headers)

/-- Everything `send` passes to `fetch` (the request half of the
dispatcher). -/
structure DispatchedRequest where
  url : String
  urlQuery : SearchParams
  headers : HList
  payload : Payload

/-- The conditional-request header block of `send` (client.ts lines
898-903): `If-None-Match` / `If-Modified-Since` are set last, and only
when truthy. -/
def applyConditionalHeaders (headers : HList) (inm ims : Option String) : HList :=
  let headers :=
    match inm with
    | some v => if v = "" then headers else hSet headers "If-None-Match" v
    | none => headers
  match ims with
  | some v => if v = "" then headers else hSet headers "If-Modified-Since" v
  | none => headers

/-- The request-construction half of `send` (client.ts lines 882-922):
URL joining, query serialization, header preparation, conditional
headers (applied last, skipped when falsy), body encoding. -/
def sendRequest (cfg : ClientConfig) (opts : RequestDescriptor) : DispatchedRequest :=
  let base := if sEndsWith cfg.baseUrl "/" then cfg.baseUrl else cfg.baseUrl ++ "/"
  let relativePath := stripLeadingSlashes opts.path
  let urlQuery := sendUrlQuery opts.query
  let headers := prepareHeaders cfg opts.headers opts.body
  let headers := applyConditionalHeaders headers opts.ifNoneMatch opts.ifModifiedSince
  match preparePayload opts.body headers with
  | (payload, headers) =>
    { url := base ++ relativePath, urlQuery, headers, payload }

/-! ## Response classification -/

/-- An HTTP response as `send` observes it.  The three body accessors
model `response.json()` / `response.text()` / `response.arrayBuffer()`;
`none` means the accessor rejects (decode failure). -/
structure HttpResponse where
  status : Nat
  statusText : String
  headers : HList
  jsonBody : Option JsValue
  textBody : Option String
  bufBody : Option (List Nat)

/-- The decoding strategy `send` settles on for a response. -/
def finalTypeOf (opts : RequestDescriptor) (response : HttpResponse) : RespType :=
  finalResponseType (inferResponseType ((hGet response.headers "Content-Type").getD ""))
    opts.responseType

/-- The body-decoding block of `send` (client.ts lines 945-965): 204
skips decoding entirely (the body stays `null`); otherwise decode per
the final type, and a decode failure degrades to the empty/null value
of that type instead of propagating. -/
def decodeBody (opts : RequestDescriptor) (response : HttpResponse) : JsValue :=
  if response.status = 204 then .null
  else
    match finalTypeOf opts response with
    | .arrayBuffer =>
      match response.bufBody with
      | some bs => .buf bs
      | none => .buf []
    | .text =>
      match response.textBody with
      | some s => .str s
      | none => .str ""
    | .json =>
      match response.jsonBody with
      | some v => v
      | none => .null

/-- The success envelope (`ApiResponse<T>` in types.ts). -/
structure ApiResponseEnv where
  status : Nat
  data : JsValue
  headers : HList
  traceId : Option String
  rateLimit : Option RateLimitInfo
  notModified : Bool

/-- The fields `send` passes to the `InheritageApiError` constructor
(client.ts lines 969-979; the class in errors.ts is a plain data
carrier for exactly these fields, per the README's error contract). -/
structure InheritageApiError where
  status : Nat
  code : JsValue
  message : JsValue
  hint : JsValue
  doc : JsValue
  traceId : Option JsValue
  retryAfter : Option Int
  rateLimit : Option RateLimitInfo
  payload : JsValue

/-- Property read on a JS object: `undefined` (`none`) unless the value
is a plain object carrying the key. -/
def JsValue.getField : JsValue → String → Option JsValue
  | .obj fields, k => (fields.find? (fun p => p.1 = k)).map Prod.snd
  | _, _ => none

/-- `typeof parsedBody === "object" && parsedBody !== null ?
(parsedBody as Record<string, any>).error : undefined` (client.ts
line 968).  Arrays and buffers are `typeof "object"` but carry no
`error` property. -/
def errorEnvelopeOf (parsedBody : JsValue) : Option JsValue :=
  match parsedBody with
  | .obj fields => (fields.find? (fun p => p.1 = "error")).map Prod.snd
  | _ => none

/-- Optional chaining `envelope?.k`: `undefined` when the envelope is
nullish or not an object with the key. -/
def jsField (envelope : Option JsValue) (k : String) : Option JsValue :=
  match envelope with
  | some v => v.getField k
  | none => none

/-- `a ?? b` where the left side is a possibly-absent JS value
(`none` = `undefined`, `some .null` = `null`). -/
def nullishOr (a : Option JsValue) (b : JsValue) : JsValue :=
  match a with
  | some v => if v matches .null then b else v
  | none => b

/-- `a ?? b` with an optional right side (the `trace_id ?? traceId`
fallback, whose result may itself be `undefined`). -/
def nullishOrOpt (a : Option JsValue) (b : Option JsValue) : Option JsValue :=
  match a with
  | some v => if v matches .null then b else some v
  | none => b

/-- The `InheritageApiError` construction of `send` (client.ts lines
967-979). -/
def buildApiError (env : JsEnv) (response : HttpResponse) (traceId : Option String)
    (rateLimit : Option RateLimitInfo) (parsedBody : JsValue) : InheritageApiError :=
  let errorEnvelope := errorEnvelopeOf parsedBody
  { status := response.status
    code := nullishOr (jsField errorEnvelope "code") (.str "INTERNAL_SERVER_ERROR")
    message := nullishOr (jsField errorEnvelope "message") (.str response.statusText)
    hint := nullishOr (jsField errorEnvelope "hint") .null
    doc := nullishOr (jsField errorEnvelope "doc") .null
    traceId := nullishOrOpt (jsField errorEnvelope "trace_id") (traceId.map .str)
    retryAfter := parseRetryAfter env response.headers
    rateLimit := rateLimit
    payload := parsedBody }

/-- Outcome of a call: a returned envelope or a thrown error. -/
inductive SendResult where
  | ok (envelope : ApiResponseEnv)
  | err (e : InheritageApiError)

/-- The response-classification half of `send` (client.ts lines
924-991): 304 short-circuits with a null-data envelope before any
decoding, then the body is decoded, then non-2xx statuses throw the
constructed error and 2xx statuses return the success envelope. -/
def classifyResponse (env : JsEnv) (opts : RequestDescriptor) (response : HttpResponse) :
    SendResult :=
  let traceId := hGet response.headers "X-Trace-Id"
  let rateLimit := toRateLimit response.headers
  if response.status = 304 then
    .ok { status := response.status, data := .null, headers := response.headers,
          traceId, rateLimit, notModified := true }
  else
    let parsedBody := decodeBody opts response
    if 200 ≤ response.status ∧ response.status ≤ 299 then
      .ok { status := response.status, data := parsedBody, headers := response.headers,
            traceId, rateLimit, notModified := false }
    else
      .err (buildApiError env response traceId rateLimit parsedBody)

/-- The whole of `send`: what goes out to `fetch` and how the response
comes back. -/
def send (cfg : ClientConfig) (env : JsEnv) (opts : RequestDescriptor)
    (response : HttpResponse) : DispatchedRequest × SendResult :=
  (sendRequest cfg opts, classifyResponse env opts response)

/-! ## NDJSON parsing (`parseNdjsonRecords`, `getAIVectorIndex`) -/

/-- The per-line loop of `parseNdjsonRecords`: skip blank (trimmed)
lines, parse the rest, and throw on the first line that fails to parse.
`jsonParse` stands for the JS builtin `JSON.parse` (returning `none`
where the builtin throws); the thrown message interpolates the
builtin's own error message, which the abstract parser does not supply,
so the model carries the offending line after the same literal prefix. -/
def ndjsonGo (jsonParse : String → Option JsValue) (acc : List JsValue) :
    List String → Except String (List JsValue)
  | [] => .ok acc
  | line :: rest =>
    if line = "" then ndjsonGo jsonParse acc rest
    else
      match jsonParse line with
      | some v => ndjsonGo jsonParse (acc ++ [v]) rest
      | none => .error ("Failed to parse NDJSON vector record: " ++ line)

/-- `parseNdjsonRecords` (client.ts lines 153-167): a falsy input gives
no records; otherwise split on line breaks (`/\r?\n/` — every `\n`
splits and a preceding `\r` is swallowed by the `trim` that follows),
trim each line, skip blanks, parse the rest, and fail the whole
operation on the first bad line. -/
def parseNdjsonRecords (jsonParse : String → Option JsValue) (input : Option String) :
    Except String (List JsValue) :=
  match input with
  | none => .ok []
  | some s =>
    if s = "" then .ok []
    else ndjsonGo jsonParse [] ((splitNl s).map jsTrim)

/-- The post-processing step of `getAIVectorIndex` (client.ts lines
726-729): `parseNdjsonRecords(typeof response.data === "string" ?
response.data : "")`, with the thrown parse error escaping the whole
operation. -/
def getAIVectorIndexData (jsonParse : String → Option JsValue) (responseData : JsValue) :
    Except String (List JsValue) :=
  parseNdjsonRecords jsonParse
    (some (match responseData with | .str s => s | _ => ""))

/-! ## `encodeURIComponent` and the duplicated CIDOC/LIDO methods -/

/-- Characters `encodeURIComponent` leaves unescaped. -/
def isUriUnreserved (c : Char) : Bool :=
  c.isAlphanum || c = '-' || c = '_' || c = '.' || c = '!' ||
    c = '~' || c = '*' || c = '\'' || c = '(' || c = ')'

/-- Uppercase hex digit. -/
def hexDigit (n : Nat) : Char :=
  if n < 10 then Char.ofNat ('0'.toNat + n) else Char.ofNat ('A'.toNat + (n - 10))

/-- UTF-8 bytes of a scalar value. -/
def utf8Bytes (c : Char) : List Nat :=
  let n := c.toNat
  if n < 0x80 then [n]
  else if n < 0x800 then
    [0xC0 ||| (n >>> 6), 0x80 ||| (n &&& 0x3F)]
  else if n < 0x10000 then
    [0xE0 ||| (n >>> 12), 0x80 ||| ((n >>> 6) &&& 0x3F), 0x80 ||| (n &&& 0x3F)]
  else
    [0xF0 ||| (n >>> 18), 0x80 ||| ((n >>> 12) &&& 0x3F),
      0x80 ||| ((n >>> 6) &&& 0x3F), 0x80 ||| (n &&& 0x3F)]

/-- `%XX` escape of one byte. -/
def pctByte (b : Nat) : String :=
  ⟨['%', hexDigit (b / 16), hexDigit (b % 16)]⟩

/-- The JS builtin `encodeURIComponent`. -/
def encodeURIComponent (s : String) : String :=
  s.data.foldl
    (fun acc c =>
      if isUriUnreserved c then acc ++ String.singleton c
      else acc ++ String.join ((utf8Bytes c).map pctByte))
    ""

/-- `ApiRequestOptions` as the endpoint wrappers receive it (`signal`,
`cache`, `revalidate` are runtime plumbing the claims do not touch). -/
structure ApiRequestOptions where
  query : Option (List (String × QueryVal)) := none
  headers : Option HList := none
  ifNoneMatch : Option String := none
  ifModifiedSince : Option String := none

/-- First (shadowed) `getHeritageCIDOC` definition (client.ts lines
749-765): validates the slug, percent-encodes it into the path, and
forces `Accept: application/ld+json`. -/
def getHeritageCIDOC_shadowed (slug : String) (options : ApiRequestOptions) :
    Except String RequestDescriptor :=
  if slug = "" then .error "slug is required"
  else
    .ok { method := "GET"
          path := "/cidoc/" ++ encodeURIComponent slug
          headers := some (hSet (options.headers.getD []) "Accept" "application/ld+json")
          ifNoneMatch := options.ifNoneMatch
          ifModifiedSince := options.ifModifiedSince }

/-- Second `getHeritageCIDOC` definition (client.ts lines 1023-1033).
In a JS class body a later method of the same name overwrites the
earlier one on the prototype, so this is the definition in effect at
runtime: no validation, the slug interpolated into the path verbatim,
`...options` spread into the descriptor, and `Accept` merged over the
caller's headers by object spread (later key wins, modelled by
`hSet`). -/
def getHeritageCIDOC (slug : String) (options : Option ApiRequestOptions) :
    RequestDescriptor :=
  let o := options.getD {}
  { method := "GET"
    path := "/cidoc/" ++ slug
    query := o.query
    ifNoneMatch := o.ifNoneMatch
    ifModifiedSince := o.ifModifiedSince
    headers := some (hSet (o.headers.getD []) "Accept" "application/ld+json") }

/-- `HeritageLIDOParams` (`download?: boolean`); `some true` is the
only truthy value of the `if (params.download)` check. -/
structure HeritageLIDOParams where
  download : Option Bool := none

/-- First (shadowed) `getHeritageLIDO` definition (client.ts lines
770-792): validates the slug, percent-encodes it, takes a params
*object* whose truthy `download` adds `download=true`, and forces
`Accept: application/xml`. -/
def getHeritageLIDO_shadowed (slug : String) (params : HeritageLIDOParams)
    (options : ApiRequestOptions) : Except String RequestDescriptor :=
  if slug = "" then .error "slug is required"
  else
    .ok { method := "GET"
          path := "/lido/" ++ encodeURIComponent slug
          query := some (if params.download = some true then [("download", QueryVal.str "true")] else [])
          headers := some (hSet (options.headers.getD []) "Accept" "application/xml")
          ifNoneMatch := options.ifNoneMatch
          ifModifiedSince := options.ifModifiedSince }

/-- Second `getHeritageLIDO` definition (client.ts lines 1048-1063),
the one in effect at runtime: the slug interpolated verbatim, a
*boolean* `download` flag (default `false`) as the second parameter
producing `download=true` or no query at all, `...options` spread after
the query key (so a caller-supplied query overrides it), and `Accept:
application/xml` merged over the caller's headers. -/
def getHeritageLIDO (slug : String) (download : Bool) (options : Option ApiRequestOptions) :
    RequestDescriptor :=
  let o := options.getD {}
  { method := "GET"
    path := "/lido/" ++ slug
    query :=
      match o.query with
      | some q => some q
      | none => if download then some [("download", QueryVal.str "true")] else none
    ifNoneMatch := o.ifNoneMatch
    ifModifiedSince := o.ifModifiedSince
    headers := some (hSet (o.headers.getD []) "Accept" "application/xml") }

/-- `HeritageLidoExportParams`. -/
structure LidoExportParams where
  state : Option String := none
  country : Option String := none
  category : Option String := none
  limit : Option Int := none
  offset : Option Int := none

/-- First (shadowed) `exportHeritageLIDO` definition (client.ts lines
797-825): builds the query from the present fields one by one and
forces `Accept: application/zip`. -/
def exportHeritageLIDO_shadowed (params : LidoExportParams) (options : ApiRequestOptions) :
    RequestDescriptor :=
  let q : List (String × QueryVal) := []
  let q := match params.state with | some s => if s = "" then q else q ++ [("state", .str s)] | none => q
  let q := match params.country with | some s => if s = "" then q else q ++ [("country", .str s)] | none => q
  let q := match params.category with | some s => if s = "" then q else q ++ [("category", .str s)] | none => q
  let q := match params.limit with | some n => q ++ [("limit", .num n)] | none => q
  let q := match params.offset with | some n => q ++ [("offset", .num n)] | none => q
  { method := "GET"
    path := "/lido/export"
    query := some q
    headers := some (hSet (options.headers.getD []) "Accept" "application/zip") }

/-- Second `exportHeritageLIDO` definition (client.ts lines 1073-1093),
the one in effect at runtime: the params record passed to `send` as the
query directly (absent fields contribute nothing once serialized), with
`...options` spread after it. -/
def exportHeritageLIDO (params : Option LidoExportParams) (options : Option ApiRequestOptions) :
    RequestDescriptor :=
  let o := options.getD {}
  let p := params.getD {}
  let q : List (String × QueryVal) :=
    (match p.state with | some s => [("state", QueryVal.str s)] | none => []) ++
    (match p.country with | some s => [("country", QueryVal.str s)] | none => []) ++
    (match p.category with | some s => [("category", QueryVal.str s)] | none => []) ++
    (match p.limit with | some n => [("limit", QueryVal.num n)] | none => []) ++
    (match p.offset with | some n => [("offset", QueryVal.num n)] | none => [])
  { method := "GET"
    path := "/lido/export"
    query :=
      match o.query with
      | some oq => some oq
      | none => match params with | some _ => some q | none => none
    ifNoneMatch := o.ifNoneMatch
    ifModifiedSince := o.ifModifiedSince
    headers := some (hSet (o.headers.getD []) "Accept" "application/zip") }

/-! ## Shared helper lemmas -/

/-- `delete` leaves the entries under other keys untouched. -/
theorem filter_spDelete_ne (l : SearchParams) (key other : String) (hne : other ≠ key) :
    (spDelete l key).filter (fun p => p.1 = other) = l.filter (fun p => p.1 = other) := by
  simp only [spDelete, List.filter_filter]
  apply List.filter_congr
  intro a _
  by_cases ho : a.1 = other
  · have hk : ¬ a.1 = key := fun hc => hne (ho.symm.trans hc)
    simp [ho, hk, hne]
  · simp [ho]

/-- `delete` removes every entry under the deleted key. -/
theorem filter_spDelete_self (l : SearchParams) (key : String) :
    (spDelete l key).filter (fun p => p.1 = key) = [] := by
  simp only [spDelete, List.filter_filter]
  apply List.filter_eq_nil_iff.mpr
  intro a _
  by_cases ha : a.1 = key <;> simp [ha]

/-- The filter of a `set` result at the written key is the single
written pair. -/
theorem filter_spSet_self (h : SearchParams) (key v : String) :
    (spSet h key v).filter (fun p => p.1 = key) = [(key, v)] := by
  induction h with
  | nil => simp [spSet]
  | cons p rest ih =>
    obtain ⟨k', v'⟩ := p
    by_cases hk : k' = key
    · subst hk
      simp [spSet, List.filter_cons, filter_spDelete_self]
    · simp only [spSet, if_neg hk, List.filter_cons]
      simp [hk, ih]

/-- `set` does not disturb the entries under other keys. -/
theorem filter_spSet_ne (h : SearchParams) (key v other : String) (hne : other ≠ key) :
    (spSet h key v).filter (fun p => p.1 = other) = h.filter (fun p => p.1 = other) := by
  induction h with
  | nil => simp [spSet, List.filter_cons, hne.symm]
  | cons p rest ih =>
    obtain ⟨k', v'⟩ := p
    by_cases hk : k' = key
    · subst hk
      simp [spSet, List.filter_cons, Ne.symm hne, filter_spDelete_ne rest k' other hne]
    · simp only [spSet, if_neg hk, List.filter_cons]
      by_cases ho : k' = other <;> simp [ho, ih]

/-- `Headers.get` after `Headers.set` at the same name. -/
theorem hGet_hSet_self (h : HList) (k v : String) : hGet (hSet h k v) k = some v := by
  simp [hGet, hSet, filter_spSet_self, joinCommaSpace]

/-- `Headers.get` after `Headers.set` at a different (normalized)
name. -/
theorem hGet_hSet_ne (h : HList) (k v k' : String) (hne : sToLower k' ≠ sToLower k) :
    hGet (hSet h k v) k' = hGet h k' := by
  simp only [hGet, hSet, filter_spSet_ne h (sToLower k) v (sToLower k') hne]

/-- Membership formulation of `Headers.has`. -/
theorem hHas_eq_filter (l : HList) (k' : String) :
    hHas l k' = !(l.filter (fun p => p.1 = sToLower k')).isEmpty := by
  induction l with
  | nil => simp [hHas]
  | cons p rest ih =>
    by_cases hp : p.1 = sToLower k'
    · simp [hHas, List.filter_cons, hp]
    · simp only [hHas, List.any_cons, List.filter_cons, hp]
      simp only [hHas] at ih
      simp [hp, ih]

/-- `Headers.has` after `Headers.set` at a different (normalized)
name. -/
theorem hHas_hSet_ne (h : HList) (k v k' : String) (hne : sToLower k' ≠ sToLower k) :
    hHas (hSet h k v) k' = hHas h k' := by
  rw [hHas_eq_filter, hHas_eq_filter, hSet,
    filter_spSet_ne h (sToLower k) v (sToLower k') hne]

/-- An absent header name yields no `get` value. -/
theorem hGet_eq_none_of_not_has (h : HList) (k : String) (hna : hHas h k = false) :
    hGet h k = none := by
  have hf : h.filter (fun p => p.1 = sToLower k) = [] := by
    rw [hHas_eq_filter] at hna
    simpa [List.isEmpty_iff] using hna
  simp [hGet, hf]

/-- A fixed default configuration: the result of `new
InheritageClient()` with no options. -/
def testConfig : ClientConfig :=
  { baseUrl := "https://inheritage.foundation/api/v1"
    attribution := "visible"
    plan := "public"
    baseHeaders :=
      [("accept", "application/json"), ("x-inheritage-attribution", "visible"),
        ("user-agent", "inheritage-sdk/0.1 (+https://inheritage.foundation/docs/api)")] }

/-- `testConfig` really is what the constructor produces. -/
theorem mkClient_default : mkClient {} = .ok testConfig := rfl

/-- A JS environment with no parseable dates, for concrete runs. -/
def envC : JsEnv := ⟨fun _ => none, 0⟩

/-! ## Claim theorems -/

/-- The full envelope `getAIVectorIndex` returns to its caller
(client.ts lines 726-729): the `send` envelope spread with `data`
replaced by `parseNdjsonRecords(typeof response.data === "string" ?
response.data : "")`, the parsed record array as a JS value; a parse
error escapes the whole operation. -/
def getAIVectorIndexEnvelope (jsonParse : String → Option JsValue)
    (envelope : ApiResponseEnv) : Except String ApiResponseEnv :=
  (getAIVectorIndexData jsonParse envelope.data).map
    (fun records => { envelope with data := JsValue.arr records })

/-- Claim C2 (amended): a response with HTTP status 304 makes `send`
return an envelope with `data = null` and `notModified = true`, with
no body parsing attempted (the result does not depend on the declared
content type or on any of the three body accessors, which appear on
the left of the equation but not on the right) — but not *every* call
made through the client surfaces that null: `getAIVectorIndex`
post-processes the envelope with `parseNdjsonRecords(typeof
response.data === "string" ? response.data : "")`, whose falsy-input
branch turns the null into an empty record array, so its callers
observe `data = []` with `notModified = true`. -/
theorem send_304_notModified_with_vector_index (cfg : ClientConfig) (env : JsEnv)
    (opts : RequestDescriptor) (stx : String) (hd : HList) (jb : Option JsValue)
    (tb : Option String) (bb : Option (List Nat))
    (jsonParse : String → Option JsValue) :
    (send cfg env opts ⟨304, stx, hd, jb, tb, bb⟩).2 =
      SendResult.ok
        { status := 304, data := JsValue.null, headers := hd,
          traceId := hGet hd "X-Trace-Id", rateLimit := toRateLimit hd,
          notModified := true } ∧
    getAIVectorIndexEnvelope jsonParse
        { status := 304, data := JsValue.null, headers := hd,
          traceId := hGet hd "X-Trace-Id", rateLimit := toRateLimit hd,
          notModified := true } =
      .ok { status := 304, data := JsValue.arr [], headers := hd,
            traceId := hGet hd "X-Trace-Id", rateLimit := toRateLimit hd,
            notModified := true } :=
  ⟨rfl, rfl⟩

/-- Claim C2, counterexample: a 304 response routed through
`getAIVectorIndex` reaches the caller with `data = []` — the empty
record array `parseNdjsonRecords` substitutes for the envelope's null —
so the call does not return `data = null` as the claim states for
every call made through the client. -/
theorem getAIVectorIndex_304_counterexample :
    (send testConfig envC { method := "GET", path := "/ai/vector-index.ndjson" }
        ⟨304, "Not Modified", [("x-trace-id", "t-304")], none, none, none⟩).2 =
      SendResult.ok
        { status := 304, data := JsValue.null, headers := [("x-trace-id", "t-304")],
          traceId := some "t-304", rateLimit := none, notModified := true } ∧
    getAIVectorIndexEnvelope (fun _ => none)
        { status := 304, data := JsValue.null, headers := [("x-trace-id", "t-304")],
          traceId := some "t-304", rateLimit := none, notModified := true } =
      .ok { status := 304, data := JsValue.arr [], headers := [("x-trace-id", "t-304")],
            traceId := some "t-304", rateLimit := none, notModified := true } ∧
    JsValue.arr [] ≠ JsValue.null :=
  ⟨rfl, rfl, nofun⟩

/-- Claim C3 (amended): a response with HTTP status 204 never has its
body parsed, and the envelope's `data` is `null` regardless of the
inferred content type — the `parsedBody` variable is initialized to
`null` and the 204 guard skips every decoding branch, so text and
binary responses do not receive their empty-string/empty-buffer zero
values. -/
theorem send_204_null_data (cfg : ClientConfig) (env : JsEnv) (opts : RequestDescriptor)
    (stx : String) (hd : HList) (jb : Option JsValue) (tb : Option String)
    (bb : Option (List Nat)) :
    (send cfg env opts ⟨204, stx, hd, jb, tb, bb⟩).2 =
      SendResult.ok
        { status := 204, data := JsValue.null, headers := hd,
          traceId := hGet hd "X-Trace-Id", rateLimit := toRateLimit hd,
          notModified := false } := rfl

/-- Claim C3, counterexample: a 204 response declaring `text/plain`
(for which the chosen decoding strategy is text, whose zero value would
be the empty string) still yields `data = null`, not `data = ""`. -/
theorem send_204_text_counterexample :
    finalTypeOf { method := "GET", path := "/heritage" }
        ⟨204, "No Content", [("content-type", "text/plain")], none, some "", some []⟩ =
      RespType.text ∧
    classifyResponse envC { method := "GET", path := "/heritage" }
        ⟨204, "No Content", [("content-type", "text/plain")], none, some "", some []⟩ =
      SendResult.ok
        { status := 204, data := JsValue.null, headers := [("content-type", "text/plain")],
          traceId := none, rateLimit := none, notModified := false } ∧
    JsValue.null ≠ JsValue.str "" :=
  ⟨rfl, rfl, nofun⟩

/-- Claim C9: construction with `suppressed` attribution and any plan
other than `commercial` fails immediately by throwing, and every
successfully constructed configuration satisfies the invariant that
`suppressed` attribution implies the `commercial` plan (the
configuration fields are `readonly` and never mutated after
construction, so the invariant holds for the client's lifetime). -/
theorem mkClient_attribution_invariant (options : ClientOptions) :
    ((options.attribution.getD ATTRIBUTION_VISIBLE = ATTRIBUTION_SUPPRESSED ∧
        options.plan.getD PLAN_PUBLIC ≠ PLAN_COMMERCIAL) →
      ∃ msg, mkClient options = .error msg) ∧
    (∀ cfg, mkClient options = .ok cfg →
      (cfg.attribution = ATTRIBUTION_SUPPRESSED → cfg.plan = PLAN_COMMERCIAL) ∧
      cfg.attribution = options.attribution.getD ATTRIBUTION_VISIBLE ∧
      cfg.plan = options.plan.getD PLAN_PUBLIC) := by
  constructor
  · intro h
    simp only [mkClient]
    rw [if_pos h]
    exact ⟨_, rfl⟩
  · intro cfg hok
    by_cases hc : options.attribution.getD ATTRIBUTION_VISIBLE = ATTRIBUTION_SUPPRESSED ∧
        options.plan.getD PLAN_PUBLIC ≠ PLAN_COMMERCIAL
    · simp only [mkClient] at hok
      rw [if_pos hc] at hok
      exact absurd hok (by simp)
    · simp only [mkClient] at hok
      rw [if_neg hc] at hok
      have hcfg := Except.ok.inj hok
      subst hcfg
      refine ⟨?_, rfl, rfl⟩
      intro hs
      by_contra hp
      exact hc ⟨hs, hp⟩

/-- Claim C9, witness: `attribution: "suppressed"` with
`plan: "public"` is rejected at construction. -/
theorem mkClient_attribution_invariant_witness :
    ∃ msg, mkClient { attribution := some "suppressed", plan := some "public" } = .error msg :=
  (mkClient_attribution_invariant
      { attribution := some "suppressed", plan := some "public" }).1
    ⟨rfl, by decide⟩

/-- Claim C10: of the duplicated class methods, the later definitions
are the ones in effect (a later method of the same name in a JS class
body overwrites the earlier one).  The effective `getHeritageCIDOC` and
`getHeritageLIDO` embed the slug in the request path verbatim, without
percent-encoding — unlike the shadowed first definitions, which applied
`encodeURIComponent` — and the effective `getHeritageLIDO` takes a
boolean `download` flag as its second parameter (its query is
`download=true` or nothing) rather than a params object. -/
theorem duplicated_methods_effective (slug : String) :
    (∀ opts, (getHeritageCIDOC slug opts).path = "/cidoc/" ++ slug) ∧
    (∀ dl opts, (getHeritageLIDO slug dl opts).path = "/lido/" ++ slug) ∧
    (getHeritageLIDO slug true none).query = some [("download", QueryVal.str "true")] ∧
    (getHeritageLIDO slug false none).query = none ∧
    (slug ≠ "" →
      ∃ d, getHeritageCIDOC_shadowed slug {} = .ok d ∧
        d.path = "/cidoc/" ++ encodeURIComponent slug) ∧
    (slug ≠ "" → ∀ params,
      ∃ d, getHeritageLIDO_shadowed slug params {} = .ok d ∧
        d.path = "/lido/" ++ encodeURIComponent slug) ∧
    encodeURIComponent "taj mahal" ≠ "taj mahal" := by
  refine ⟨fun opts => rfl, fun dl opts => rfl, rfl, rfl, fun h => ?_, fun h params => ?_,
    by decide⟩
  · rw [getHeritageCIDOC_shadowed, if_neg h]
    exact ⟨_, rfl, rfl⟩
  · rw [getHeritageLIDO_shadowed, if_neg h]
    exact ⟨_, rfl, rfl⟩

/-- Claim C10, witness: at the slug `"taj mahal"` the shadowed first
definition would have percent-encoded the path. -/
theorem duplicated_methods_effective_witness :
    ∃ d, getHeritageCIDOC_shadowed "taj mahal" {} = .ok d ∧
      d.path = "/cidoc/" ++ encodeURIComponent "taj mahal" :=
  (duplicated_methods_effective "taj mahal").2.2.2.2.1 (by decide)

/-- Claim C7: the rate-limit snapshot is present exactly when all
three `X-RateLimit-*` headers are present and numeric, and when
present it is fully populated from the three headers (so it is never
partially populated). -/
theorem rateLimit_all_or_nothing (h : HList) :
    ((toRateLimit h).isSome = true ↔
      ∃ l r t, hGet h "X-RateLimit-Limit" = some l ∧
        hGet h "X-RateLimit-Remaining" = some r ∧
        hGet h "X-RateLimit-Reset" = some t ∧
        (jsNumber l).isSome = true ∧ (jsNumber r).isSome = true ∧
        (jsNumber t).isSome = true) ∧
    (∀ info, toRateLimit h = some info →
      ∃ l r t, hGet h "X-RateLimit-Limit" = some l ∧
        hGet h "X-RateLimit-Remaining" = some r ∧
        hGet h "X-RateLimit-Reset" = some t ∧
        jsNumber l = some info.limit ∧ jsNumber r = some info.remaining ∧
        jsNumber t = some info.reset) := by
  cases hl : hGet h "X-RateLimit-Limit" with
  | none => simp [toRateLimit, hl]
  | some l =>
    cases hr : hGet h "X-RateLimit-Remaining" with
    | none => simp [toRateLimit, hl, hr]
    | some r =>
      cases ht : hGet h "X-RateLimit-Reset" with
      | none => simp [toRateLimit, hl, hr, ht]
      | some t =>
        simp only [toRateLimit, hl, hr, ht]
        by_cases hemp : l = "" ∨ r = "" ∨ t = ""
        · rw [if_pos hemp]
          constructor
          · constructor
            · intro hs
              simp at hs
            · rintro ⟨l', r', t', hl', hr', ht', hjl, hjr, hjt⟩
              obtain rfl : l = l' := Option.some.inj hl'
              obtain rfl : r = r' := Option.some.inj hr'
              obtain rfl : t = t' := Option.some.inj ht'
              rcases hemp with rfl | rfl | rfl
              · exact absurd hjl (by decide)
              · exact absurd hjr (by decide)
              · exact absurd hjt (by decide)
          · intro info hinfo
            simp at hinfo
        · rw [if_neg hemp]
          cases hjl : jsNumber l with
          | none => simp [hjl]
          | some ln =>
            cases hjr : jsNumber r with
            | none => simp [hjl, hjr]
            | some rn =>
              cases hjt : jsNumber t with
              | none => simp [hjl, hjr, hjt]
              | some tn =>
                simp only [hjl, hjr, hjt]
                constructor
                · constructor
                  · intro _
                    exact ⟨l, r, t, rfl, rfl, rfl, by simp [hjl], by simp [hjr], by simp [hjt]⟩
                  · intro _
                    rfl
                · intro info hinfo
                  obtain rfl : (⟨ln, rn, tn⟩ : RateLimitInfo) = info := Option.some.inj hinfo
                  exact ⟨l, r, t, rfl, rfl, rfl, hjl, hjr, hjt⟩

/-- Claim C7, witness: a complete numeric header triple yields the
parsed triple. -/
theorem rateLimit_all_or_nothing_witness :
    ∃ l r t,
      hGet [("x-ratelimit-limit", "120"), ("x-ratelimit-remaining", "118"),
          ("x-ratelimit-reset", "99")] "X-RateLimit-Limit" = some l ∧
      hGet [("x-ratelimit-limit", "120"), ("x-ratelimit-remaining", "118"),
          ("x-ratelimit-reset", "99")] "X-RateLimit-Remaining" = some r ∧
      hGet [("x-ratelimit-limit", "120"), ("x-ratelimit-remaining", "118"),
          ("x-ratelimit-reset", "99")] "X-RateLimit-Reset" = some t ∧
      jsNumber l = some (120 : Int) ∧ jsNumber r = some (118 : Int) ∧
      jsNumber t = some (99 : Int) :=
  (rateLimit_all_or_nothing
      [("x-ratelimit-limit", "120"), ("x-ratelimit-remaining", "118"),
        ("x-ratelimit-reset", "99")]).2
    ⟨120, 118, 99⟩ (by decide)

/-! ## Query collapse: supporting lemmas for claim C1 -/

/-- Last element with a default. -/
def lastD {α : Type _} (d : α) : List α → α
  | [] => d
  | a :: l => lastD a l

/-- Last element, optionally. -/
def lastOpt {α : Type _} : List α → Option α
  | [] => none
  | a :: l => some (lastD a l)

/-- The pairs a single query entry contributes to `serializeQuery`'s
output: nothing for nullish values, one pair per non-nullish element
for arrays, one pair for scalars. -/
def entryPairs (kv : String × QueryVal) : List (String × String) :=
  match kv.2 with
  | .null => []
  | .undef => []
  | .arr xs => (xs.filter (fun e => !elemIsNullish e)).map (fun e => (kv.1, jsStrOfElem e))
  | v => [(kv.1, jsStrOf v)]

/-- The single pair a query entry contributes to the *final* URL after
`send`'s `set`-based copy: for arrays, only the last non-nullish
element survives. -/
def collapsedQueryEntry (kv : String × QueryVal) : Option (String × String) :=
  match kv.2 with
  | .null => none
  | .undef => none
  | .arr xs =>
    (lastOpt (xs.filter (fun e => !elemIsNullish e))).map (fun e => (kv.1, jsStrOfElem e))
  | v => some (kv.1, jsStrOf v)

theorem lastD_map {α β : Type _} (f : α → β) (d : α) (l : List α) :
    lastD (f d) (l.map f) = f (lastD d l) := by
  induction l generalizing d with
  | nil => rfl
  | cons a l ih => simpa [lastD] using ih a

theorem lastOpt_map {α β : Type _} (f : α → β) (l : List α) :
    lastOpt (l.map f) = (lastOpt l).map f := by
  cases l with
  | nil => rfl
  | cons a l => simp [lastOpt, lastD_map]

theorem lastOpt_entryPairs (kv : String × QueryVal) :
    lastOpt (entryPairs kv) = collapsedQueryEntry kv := by
  obtain ⟨k, v⟩ := kv
  cases v with
  | arr xs =>
    simp only [entryPairs, collapsedQueryEntry]
    exact lastOpt_map _ _
  | null => rfl
  | undef => rfl
  | str s => rfl
  | num n => rfl
  | bool b => rfl

theorem entryPairs_key (kv : String × QueryVal) : ∀ p ∈ entryPairs kv, p.1 = kv.1 := by
  obtain ⟨k, v⟩ := kv
  cases v with
  | arr xs =>
    simp only [entryPairs]
    intro p hp
    rcases List.mem_map.mp hp with ⟨e, _, rfl⟩
    rfl
  | null => simp [entryPairs]
  | undef => simp [entryPairs]
  | str s => simp [entryPairs]
  | num n => simp [entryPairs]
  | bool b => simp [entryPairs]

/-- `set` on a fresh key appends. -/
theorem spSet_not_mem (sp : SearchParams) (k v : String) (h : ∀ p ∈ sp, p.1 ≠ k) :
    spSet sp k v = sp ++ [(k, v)] := by
  induction sp with
  | nil => rfl
  | cons p rest ih =>
    obtain ⟨k', v'⟩ := p
    have hk : k' ≠ k := h (k', v') (by simp)
    simp only [spSet, if_neg hk, List.cons_append, List.cons.injEq, true_and]
    exact ih (fun q hq => h q (by simp [hq]))

/-- `set` on a key present only at the very end replaces in place. -/
theorem spSet_append_last (acc : SearchParams) (k v w : String)
    (h : ∀ p ∈ acc, p.1 ≠ k) :
    spSet (acc ++ [(k, v)]) k w = acc ++ [(k, w)] := by
  induction acc with
  | nil => simp [spSet, spDelete]
  | cons p rest ih =>
    obtain ⟨k', v'⟩ := p
    have hk : k' ≠ k := h (k', v') (by simp)
    simp only [List.cons_append, spSet, if_neg hk, List.cons.injEq, true_and]
    exact ih (fun q hq => h q (by simp [hq]))

/-- Unfolding of `serializeQuery`'s array loop. -/
theorem serArrStep_fold (k : String) (xs : List QueryElem) :
    ∀ acc, xs.foldl (serArrStep k) acc =
      acc ++ (xs.filter (fun e => !elemIsNullish e)).map (fun e => (k, jsStrOfElem e)) := by
  induction xs with
  | nil => simp
  | cons x xs ih =>
    intro acc
    by_cases hx : elemIsNullish x = true
    · simp [serArrStep, hx, ih]
    · simp only [List.foldl_cons, serArrStep, hx, if_neg]
      rw [ih]
      simp [hx]

/-- `serializeQuery` on a mapping with pairwise-distinct keys is the
concatenation of the per-entry pair lists. -/
theorem ser_fold (ps : List (String × QueryVal)) :
    ∀ acc, (∀ kv ∈ ps, ∀ p ∈ acc, p.1 ≠ kv.1) → (ps.map Prod.fst).Nodup →
      ps.foldl serStep acc = acc ++ (ps.map entryPairs).flatten := by
  induction ps with
  | nil => simp
  | cons kv rest ih =>
    intro acc hdisj hnodup
    have hstep : serStep acc kv = acc ++ entryPairs kv := by
      obtain ⟨k, v⟩ := kv
      cases v with
      | null => simp [serStep, entryPairs]
      | undef => simp [serStep, entryPairs]
      | arr xs => simpa [serStep, entryPairs] using serArrStep_fold k xs acc
      | str s => exact spSet_not_mem acc k _ (fun p hp => hdisj (k, .str s) (by simp) p hp)
      | num n => exact spSet_not_mem acc k _ (fun p hp => hdisj (k, .num n) (by simp) p hp)
      | bool b => exact spSet_not_mem acc k _ (fun p hp => hdisj (k, .bool b) (by simp) p hp)
    rw [List.foldl_cons, hstep,
      ih (acc ++ entryPairs kv)
        (by
          intro kv' hkv' p hp
          rcases List.mem_append.mp hp with hp | hp
          · exact hdisj kv' (by simp [hkv']) p hp
          · have hpk : p.1 = kv.1 := entryPairs_key kv p hp
            rw [hpk]
            intro hcontra
            have : kv.1 ∈ rest.map Prod.fst := by
              rw [hcontra]
              exact List.mem_map.mpr ⟨kv', hkv', rfl⟩
            exact (List.nodup_cons.mp hnodup).1 this)
        (List.nodup_cons.mp hnodup).2]
    simp

/-- The last element with default is the default or a member. -/
theorem lastD_mem {α : Type _} (d : α) (l : List α) : lastD d l = d ∨ lastD d l ∈ l := by
  induction l generalizing d with
  | nil => exact Or.inl rfl
  | cons a l ih =>
    rcases ih a with h | h
    · exact Or.inr (by simp [lastD, h])
    · exact Or.inr (by simp [lastD, h])

/-- Folding `set` over a run of pairs that all share one key replaces
the trailing pair each time, leaving the run's last value. -/
theorem collapse_run (k : String) :
    ∀ (pairs : List (String × String)), (∀ p ∈ pairs, p.1 = k) →
      ∀ (acc : SearchParams) (q0 : String × String), q0.1 = k → (∀ p ∈ acc, p.1 ≠ k) →
        pairs.foldl (fun s q => spSet s q.1 q.2) (acc ++ [q0]) = acc ++ [lastD q0 pairs] := by
  intro pairs
  induction pairs with
  | nil =>
    intro _ acc q0 _ _
    simp [lastD]
  | cons q qs ih =>
    intro hk acc q0 hq0 hacc
    have hq : q.1 = k := hk q (by simp)
    have hq0eq : q0 = (k, q0.2) := by
      rw [← hq0]
    rw [List.foldl_cons]
    rw [hq0eq, hq, spSet_append_last acc k q0.2 q.2 hacc]
    have hqq : (k, q.2) = q := by
      rw [← hq]
    rw [hqq, ih (fun p hp => hk p (by simp [hp])) acc q hq hacc]
    rfl

/-- Folding `send`'s `set`-copy over the concatenated runs keeps, per
key, only the last serialized value. -/
theorem collapse_join (ps : List (String × QueryVal)) :
    ∀ acc, (∀ kv ∈ ps, ∀ p ∈ acc, p.1 ≠ kv.1) → (ps.map Prod.fst).Nodup →
      ((ps.map entryPairs).flatten).foldl (fun s q => spSet s q.1 q.2) acc =
        acc ++ ps.filterMap (fun kv => lastOpt (entryPairs kv)) := by
  induction ps with
  | nil => simp
  | cons kv rest ih =>
    intro acc hdisj hnodup
    rw [List.map_cons, List.flatten_cons, List.foldl_append]
    cases hep : entryPairs kv with
    | nil =>
      simp only [List.foldl_nil]
      rw [ih acc (fun kv' hkv' p hp => hdisj kv' (by simp [hkv']) p hp)
        (List.nodup_cons.mp hnodup).2]
      simp [List.filterMap_cons, hep, lastOpt]
    | cons q0 qrest =>
      have hq0 : q0.1 = kv.1 := entryPairs_key kv q0 (by simp [hep])
      have hrun : ∀ p ∈ (q0 :: qrest), p.1 = kv.1 := by
        intro p hp
        exact entryPairs_key kv p (hep ▸ hp)
      have haccfresh : ∀ p ∈ acc, p.1 ≠ kv.1 := fun p hp => hdisj kv (by simp) p hp
      rw [List.foldl_cons]
      have hfirst : spSet acc q0.1 q0.2 = acc ++ [q0] := by
        rw [hq0]
        have hq0eq : q0 = (kv.1, q0.2) := by rw [← hq0]
        rw [hq0eq]
        exact spSet_not_mem acc kv.1 q0.2 haccfresh
      have hlastkey : (lastD q0 qrest).1 = kv.1 := by
        rcases lastD_mem q0 qrest with h | h
        · rw [h, hq0]
        · exact hrun _ (by simp [h])
      rw [hfirst,
        collapse_run kv.1 qrest (fun p hp => hrun p (by simp [hp])) acc q0 hq0 haccfresh,
        ih (acc ++ [lastD q0 qrest])
          (by
            intro kv' hkv' p hp
            rcases List.mem_append.mp hp with hp | hp
            · exact hdisj kv' (by simp [hkv']) p hp
            · have hp1 : p = lastD q0 qrest := by simpa using hp
              rw [hp1, hlastkey]
              intro hcontra
              have : kv.1 ∈ rest.map Prod.fst := by
                rw [hcontra]
                exact List.mem_map.mpr ⟨kv', hkv', rfl⟩
              exact (List.nodup_cons.mp hnodup).1 this)
          (List.nodup_cons.mp hnodup).2]
      have hlast : lastOpt (entryPairs kv) = some (lastD q0 qrest) := by
        rw [hep]
        rfl
      rw [List.filterMap_cons, hlast]
      simp

/-- Empty flattening means every piece is empty. -/
theorem eq_nil_of_flatten_eq_nil {a : Type _} (l : List (List a)) (h : l.flatten = [])
    (x : List a) (hx : x ∈ l) : x = [] := by
  induction l with
  | nil => cases hx
  | cons b L ih =>
    rw [List.flatten_cons] at h
    rcases List.append_eq_nil.mp h with ⟨h1, h2⟩
    rcases List.mem_cons.mp hx with rfl | hx2
    · exact h1
    · exact ih h2 hx2

/-- Claim C1 (amended): the query string of the final URL dispatched by
`send` is a deterministic serialization of the descriptor's query
mapping in which `null`/`undefined` entries (at the top level or inside
arrays) never appear and scalars are stringified — but an array value
contributes only ONE `key=value` pair, carrying its LAST non-nullish
element, not one repeated pair per element: `serializeQuery` does emit
one pair per element in array order, but `send` copies the serialized
pairs into the URL with `URLSearchParams.set`, which collapses the
repeats, keeping the last.  Stated for query mappings with
pairwise-distinct keys, which is every mapping a JS object can
denote. -/
theorem sendUrlQuery_collapses_arrays (ps : List (String × QueryVal))
    (hnodup : (ps.map Prod.fst).Nodup) :
    sendUrlQuery (some ps) = ps.filterMap collapsedQueryEntry ∧
    ∀ cfg opts, opts.query = some ps →
      (sendRequest cfg opts).urlQuery = ps.filterMap collapsedQueryEntry := by
  have hfun : (fun kv => lastOpt (entryPairs kv)) = collapsedQueryEntry :=
    funext lastOpt_entryPairs
  have hmain : sendUrlQuery (some ps) = ps.filterMap collapsedQueryEntry := by
    have hser : serializeQuery (some ps) = (ps.map entryPairs).flatten := by
      simpa [serializeQuery] using ser_fold ps [] (by simp) hnodup
    have hcoll := collapse_join ps [] (by simp) hnodup
    simp only [sendUrlQuery, hser]
    by_cases hlen : 0 < ((ps.map entryPairs).flatten).length
    · rw [if_pos hlen, hcoll, hfun]
      simp
    · rw [if_neg hlen]
      have hnil : (ps.map entryPairs).flatten = [] := by
        cases hf : (ps.map entryPairs).flatten with
        | nil => rfl
        | cons a l =>
          rw [hf] at hlen
          simp at hlen
      symm
      apply List.filterMap_eq_nil_iff.mpr
      intro kv hkv
      have hep : entryPairs kv = [] :=
        eq_nil_of_flatten_eq_nil (ps.map entryPairs) hnil (entryPairs kv)
          (List.mem_map.mpr ⟨kv, hkv, rfl⟩)
      rw [← lastOpt_entryPairs kv, hep]
      rfl
  exact ⟨hmain, fun cfg opts hq => by
    have : (sendRequest cfg opts).urlQuery = sendUrlQuery opts.query := rfl
    rw [this, hq, hmain]⟩

/-- Claim C1, witness for the amended statement: a two-element array
ends up as the single pair carrying the last element. -/
theorem sendUrlQuery_collapses_arrays_witness :
    sendUrlQuery (some [("a", QueryVal.arr [QueryElem.str "1", QueryElem.str "2"])]) =
      List.filterMap collapsedQueryEntry
        [("a", QueryVal.arr [QueryElem.str "1", QueryElem.str "2"])] :=
  (sendUrlQuery_collapses_arrays
      [("a", QueryVal.arr [QueryElem.str "1", QueryElem.str "2"])] (by decide)).1

/-- Claim C1, counterexample: for the query mapping
`{a: ["1", "2"]}`, `serializeQuery` emits the repeated pairs
`a=1, a=2` — but the final URL built by `send` carries only `a=2`,
not one repeated `key=value` pair per array element as claimed. -/
theorem sendUrlQuery_repeated_keys_counterexample :
    serializeQuery (some [("a", QueryVal.arr [QueryElem.str "1", QueryElem.str "2"])]) =
      [("a", "1"), ("a", "2")] ∧
    (sendRequest testConfig
        { method := "GET", path := "/heritage",
          query := some [("a", QueryVal.arr [QueryElem.str "1", QueryElem.str "2"])] }).urlQuery =
      [("a", "2")] ∧
    (sendRequest testConfig
        { method := "GET", path := "/heritage",
          query := some [("a", QueryVal.arr [QueryElem.str "1", QueryElem.str "2"])] }).urlQuery ≠
      [("a", "1"), ("a", "2")] :=
  ⟨rfl, rfl, by decide⟩

/-! ## NDJSON lemmas for claim C8 -/

/-- The non-blank trimmed lines of an NDJSON body. -/
def ndjsonLines (s : String) : List String :=
  ((splitNl s).map jsTrim).filter (fun l => l ≠ "")

/-- When every non-blank line parses, the line loop returns one record
per non-blank line, in order. -/
theorem ndjsonGo_ok (jp : String → Option JsValue) (lines : List String) :
    ∀ acc, (∀ l ∈ lines.filter (fun l => l ≠ ""), (jp l).isSome = true) →
      ndjsonGo jp acc lines = .ok (acc ++ (lines.filter (fun l => l ≠ "")).filterMap jp) := by
  induction lines with
  | nil =>
    intro acc _
    simp [ndjsonGo]
  | cons line rest ih =>
    intro acc hall
    by_cases hl : line = ""
    · subst hl
      rw [ndjsonGo, if_pos rfl]
      rw [ih acc (by simpa using hall)]
      simp
    · have hsome := hall line (by simp [hl])
      obtain ⟨v, hv⟩ := Option.isSome_iff_exists.mp hsome
      have hstep : ndjsonGo jp acc (line :: rest) = ndjsonGo jp (acc ++ [v]) rest := by
        rw [ndjsonGo, if_neg hl, hv]
      rw [hstep,
        ih (acc ++ [v]) (fun l hml => hall l (by simp [List.filter_cons, hl]; right; simpa using hml))]
      simp [List.filter_cons, hl, hv]

/-- When some non-blank line fails to parse, the line loop throws the
descriptive error for the first such line (and the failing line is a
non-blank line of the input). -/
theorem ndjsonGo_err (jp : String → Option JsValue) (lines : List String) :
    ∀ acc, (∃ l ∈ lines.filter (fun l => l ≠ ""), jp l = none) →
      ∃ l, l ∈ lines.filter (fun l => l ≠ "") ∧ jp l = none ∧
        ndjsonGo jp acc lines = .error ("Failed to parse NDJSON vector record: " ++ l) := by
  induction lines with
  | nil =>
    intro acc h
    simp at h
  | cons line rest ih =>
    intro acc hex
    by_cases hl : line = ""
    · subst hl
      obtain ⟨l, hmem, hnone, heq⟩ := ih acc (by simpa using hex)
      refine ⟨l, by simpa using hmem, hnone, ?_⟩
      rw [ndjsonGo, if_pos rfl, heq]
    · cases hv : jp line with
      | none =>
        refine ⟨line, by simp [hl], hv, ?_⟩
        rw [ndjsonGo, if_neg hl, hv]
      | some v =>
        have hex2 : ∃ l ∈ rest.filter (fun l => l ≠ ""), jp l = none := by
          obtain ⟨l, hmem, hnone⟩ := hex
          have hcase : l = line ∨ l ∈ rest.filter (fun l => l ≠ "") := by
            simpa [List.filter_cons, hl] using hmem
          rcases hcase with rfl | hmem2
          · rw [hv] at hnone
            cases hnone
          · exact ⟨l, hmem2, hnone⟩
        obtain ⟨l, hmem, hnone, heq⟩ := ih (acc ++ [v]) hex2
        refine ⟨l, by simp [List.filter_cons, hl]; right; simpa using hmem, hnone, ?_⟩
        have hstep : ndjsonGo jp acc (line :: rest) = ndjsonGo jp (acc ++ [v]) rest := by
          rw [ndjsonGo, if_neg hl, hv]
        rw [hstep, heq]

/-- Claim C8: for every NDJSON body processed by `getAIVectorIndex`,
when every non-blank line is valid JSON the parsed result has exactly
one record per non-blank line in the original line order (blank and
whitespace-only lines, including a trailing blank, are skipped); and
when any single non-blank line is not valid JSON the whole operation
fails with the descriptive parse error, never returning a record list
that silently skips the bad line.  `jp` stands for the `JSON.parse`
builtin. -/
theorem getAIVectorIndex_ndjson (jp : String → Option JsValue) (s : String) :
    ((∀ l ∈ ndjsonLines s, (jp l).isSome = true) →
      getAIVectorIndexData jp (JsValue.str s) = .ok ((ndjsonLines s).filterMap jp)) ∧
    ((∃ l ∈ ndjsonLines s, jp l = none) →
      ∃ l, l ∈ ndjsonLines s ∧ jp l = none ∧
        getAIVectorIndexData jp (JsValue.str s) =
          .error ("Failed to parse NDJSON vector record: " ++ l) ∧
        ∀ records, getAIVectorIndexData jp (JsValue.str s) ≠ .ok records) := by
  by_cases hs : s = ""
  · subst hs
    constructor
    · intro _
      rfl
    · intro hex
      have hnil : ndjsonLines "" = [] := rfl
      rw [hnil] at hex
      simp at hex
  · have hunfold : getAIVectorIndexData jp (JsValue.str s) =
        ndjsonGo jp [] ((splitNl s).map jsTrim) := by
      simp [getAIVectorIndexData, parseNdjsonRecords, hs]
    constructor
    · intro hall
      rw [hunfold, ndjsonGo_ok jp _ [] (by simpa [ndjsonLines] using hall)]
      simp [ndjsonLines]
    · intro hex
      obtain ⟨l, hmem, hnone, heq⟩ :=
        ndjsonGo_err jp ((splitNl s).map jsTrim) [] (by simpa [ndjsonLines] using hex)
      refine ⟨l, by simpa [ndjsonLines] using hmem, hnone, ?_, ?_⟩
      · rw [hunfold, heq]
      · intro records hcontra
        rw [hunfold, heq] at hcontra
        cases hcontra

/-- Claim C8, witness: two valid lines with a trailing blank line parse
to the two records in order. -/
theorem getAIVectorIndex_ndjson_witness :
    getAIVectorIndexData (fun l => if l = "bad" then none else some (JsValue.str l))
        (JsValue.str "a\nb\n") =
      .ok ((ndjsonLines "a\nb\n").filterMap
        (fun l => if l = "bad" then none else some (JsValue.str l))) :=
  (getAIVectorIndex_ndjson (fun l => if l = "bad" then none else some (JsValue.str l))
      "a\nb\n").1 (by decide)

/-! ## Claims C5 and C6: error construction and decode degradation -/

theorem nullishOr_some_ne (v b : JsValue) (h : v ≠ JsValue.null) :
    nullishOr (some v) b = v := by
  cases v
  case null => exact absurd rfl h
  all_goals rfl

theorem nullishOr_nullish (o : Option JsValue) (b : JsValue)
    (h : o = none ∨ o = some JsValue.null) : nullishOr o b = b := by
  rcases h with rfl | rfl <;> rfl

theorem nullishOrOpt_some_ne (v : JsValue) (b : Option JsValue) (h : v ≠ JsValue.null) :
    nullishOrOpt (some v) b = some v := by
  cases v
  case null => exact absurd rfl h
  all_goals rfl

theorem nullishOrOpt_nullish (o : Option JsValue) (b : Option JsValue)
    (h : o = none ∨ o = some JsValue.null) : nullishOrOpt o b = b := by
  rcases h with rfl | rfl <;> rfl

/-- Claim C6: decode failures are swallowed, not propagated.  For a
non-204 response, a failed JSON parse degrades the decoded body to
`null`, a failed text read to the empty string, a failed binary read to
an empty buffer; and whether the call returns an envelope or throws is
decided solely by the HTTP status — the thrown/returned outcome is
independent of the body accessors, and on success the envelope carries
the (possibly degraded) decoded body. -/
theorem decode_failures_swallowed (env : JsEnv) (opts : RequestDescriptor)
    (st : Nat) (stx : String) (hd : HList) (jb : Option JsValue) (tb : Option String)
    (bb : Option (List Nat)) :
    (st ≠ 204 →
      ((finalTypeOf opts ⟨st, stx, hd, jb, tb, bb⟩ = RespType.json → jb = none →
          decodeBody opts ⟨st, stx, hd, jb, tb, bb⟩ = JsValue.null) ∧
        (finalTypeOf opts ⟨st, stx, hd, jb, tb, bb⟩ = RespType.text → tb = none →
          decodeBody opts ⟨st, stx, hd, jb, tb, bb⟩ = JsValue.str "") ∧
        (finalTypeOf opts ⟨st, stx, hd, jb, tb, bb⟩ = RespType.arrayBuffer → bb = none →
          decodeBody opts ⟨st, stx, hd, jb, tb, bb⟩ = JsValue.buf []))) ∧
    ((∃ e, classifyResponse env opts ⟨st, stx, hd, jb, tb, bb⟩ = SendResult.err e) ↔
      (¬(200 ≤ st ∧ st ≤ 299) ∧ st ≠ 304)) ∧
    ((200 ≤ st ∧ st ≤ 299) →
      classifyResponse env opts ⟨st, stx, hd, jb, tb, bb⟩ =
        SendResult.ok
          { status := st, data := decodeBody opts ⟨st, stx, hd, jb, tb, bb⟩,
            headers := hd, traceId := hGet hd "X-Trace-Id", rateLimit := toRateLimit hd,
            notModified := false }) := by
  refine ⟨?_, ⟨?_, ?_⟩, ?_⟩
  · intro h204
    refine ⟨?_, ?_, ?_⟩ <;> (intro hft hnb; subst hnb; simp [decodeBody, h204, hft])
  · rintro ⟨e, he⟩
    by_cases h304 : st = 304
    · subst h304
      simp [classifyResponse] at he
    · by_cases hok : 200 ≤ st ∧ st ≤ 299
      · simp only [classifyResponse] at he
        rw [if_neg h304, if_pos hok] at he
        cases he
      · exact ⟨hok, h304⟩
  · rintro ⟨hok, h304⟩
    have hcls : classifyResponse env opts ⟨st, stx, hd, jb, tb, bb⟩ =
        SendResult.err (buildApiError env ⟨st, stx, hd, jb, tb, bb⟩ (hGet hd "X-Trace-Id")
          (toRateLimit hd) (decodeBody opts ⟨st, stx, hd, jb, tb, bb⟩)) := by
      simp only [classifyResponse]
      rw [if_neg h304, if_neg hok]
    exact ⟨_, hcls⟩
  · intro hok
    have h304 : st ≠ 304 := by
      rcases hok with ⟨_, h2⟩
      omega
    simp only [classifyResponse]
    rw [if_neg h304, if_pos hok]

/-- Claim C6, witness: a 200 `application/json` response whose JSON
parse fails decodes to `null` (and still returns an envelope). -/
theorem decode_failures_swallowed_witness :
    decodeBody { method := "GET", path := "/" }
        ⟨200, "OK", [("content-type", "application/json")], none, none, none⟩ =
      JsValue.null :=
  (((decode_failures_swallowed envC { method := "GET", path := "/" } 200 "OK"
        [("content-type", "application/json")] none none none).1 (by decide)).1)
    (by decide) rfl

/-- Claim C5: a response whose status is neither 2xx nor 304 makes the
call throw an error value and never return an envelope.  The error's
code, message, hint, doc and trace fields come from the nested `error`
object of a JSON-shaped body, each falling back when missing or null:
code to the generic internal-error code, message to the HTTP status
text, hint and doc to absent (`null`), trace to the `X-Trace-Id`
response header; `retryAfter` is parsed from the `Retry-After` header
as a raw number of seconds, or as a date converted to
seconds-from-now (ceiled) and floored at zero, and an unparseable
value yields no retry hint. -/
theorem send_error_construction (env : JsEnv) (opts : RequestDescriptor)
    (response : HttpResponse)
    (hok : ¬(200 ≤ response.status ∧ response.status ≤ 299))
    (h304 : response.status ≠ 304) :
    ∃ e, classifyResponse env opts response = SendResult.err e ∧
      (∀ envp, classifyResponse env opts response ≠ SendResult.ok envp) ∧
      e.status = response.status ∧
      e.payload = decodeBody opts response ∧
      e.rateLimit = toRateLimit response.headers ∧
      (∀ c, jsField (errorEnvelopeOf (decodeBody opts response)) "code" = some c →
        c ≠ JsValue.null → e.code = c) ∧
      ((jsField (errorEnvelopeOf (decodeBody opts response)) "code" = none ∨
          jsField (errorEnvelopeOf (decodeBody opts response)) "code" = some JsValue.null) →
        e.code = JsValue.str "INTERNAL_SERVER_ERROR") ∧
      (∀ m, jsField (errorEnvelopeOf (decodeBody opts response)) "message" = some m →
        m ≠ JsValue.null → e.message = m) ∧
      ((jsField (errorEnvelopeOf (decodeBody opts response)) "message" = none ∨
          jsField (errorEnvelopeOf (decodeBody opts response)) "message" = some JsValue.null) →
        e.message = JsValue.str response.statusText) ∧
      (∀ hnt, jsField (errorEnvelopeOf (decodeBody opts response)) "hint" = some hnt →
        hnt ≠ JsValue.null → e.hint = hnt) ∧
      ((jsField (errorEnvelopeOf (decodeBody opts response)) "hint" = none ∨
          jsField (errorEnvelopeOf (decodeBody opts response)) "hint" = some JsValue.null) →
        e.hint = JsValue.null) ∧
      (∀ d, jsField (errorEnvelopeOf (decodeBody opts response)) "doc" = some d →
        d ≠ JsValue.null → e.doc = d) ∧
      ((jsField (errorEnvelopeOf (decodeBody opts response)) "doc" = none ∨
          jsField (errorEnvelopeOf (decodeBody opts response)) "doc" = some JsValue.null) →
        e.doc = JsValue.null) ∧
      (∀ t, jsField (errorEnvelopeOf (decodeBody opts response)) "trace_id" = some t →
        t ≠ JsValue.null → e.traceId = some t) ∧
      ((jsField (errorEnvelopeOf (decodeBody opts response)) "trace_id" = none ∨
          jsField (errorEnvelopeOf (decodeBody opts response)) "trace_id" = some JsValue.null) →
        e.traceId = (hGet response.headers "X-Trace-Id").map JsValue.str) ∧
      (hGet response.headers "Retry-After" = none → e.retryAfter = none) ∧
      (∀ s n, hGet response.headers "Retry-After" = some s → jsNumber s = some n →
        e.retryAfter = some n) ∧
      (∀ s t, hGet response.headers "Retry-After" = some s → s ≠ "" → jsNumber s = none →
        env.dateParse s = some t → e.retryAfter = some (max 0 (jsCeil1000 (t - env.now)))) ∧
      (∀ s, hGet response.headers "Retry-After" = some s → jsNumber s = none →
        env.dateParse s = none → e.retryAfter = none) := by
  have hcls : classifyResponse env opts response =
      SendResult.err (buildApiError env response (hGet response.headers "X-Trace-Id")
        (toRateLimit response.headers) (decodeBody opts response)) := by
    simp only [classifyResponse]
    rw [if_neg h304, if_neg hok]
  refine ⟨_, hcls, ?_, rfl, rfl, rfl, ?_, ?_, ?_, ?_, ?_, ?_, ?_, ?_, ?_, ?_, ?_, ?_, ?_, ?_⟩
  · intro envp hcontra
    rw [hcls] at hcontra
    cases hcontra
  · intro c hc hne
    show nullishOr (jsField (errorEnvelopeOf (decodeBody opts response)) "code") _ = c
    rw [hc, nullishOr_some_ne c _ hne]
  · intro hmiss
    show nullishOr (jsField (errorEnvelopeOf (decodeBody opts response)) "code") _ = _
    rw [nullishOr_nullish _ _ hmiss]
  · intro m hm hne
    show nullishOr (jsField (errorEnvelopeOf (decodeBody opts response)) "message") _ = m
    rw [hm, nullishOr_some_ne m _ hne]
  · intro hmiss
    show nullishOr (jsField (errorEnvelopeOf (decodeBody opts response)) "message") _ = _
    rw [nullishOr_nullish _ _ hmiss]
  · intro hnt hh hne
    show nullishOr (jsField (errorEnvelopeOf (decodeBody opts response)) "hint") _ = hnt
    rw [hh, nullishOr_some_ne hnt _ hne]
  · intro hmiss
    show nullishOr (jsField (errorEnvelopeOf (decodeBody opts response)) "hint") _ = _
    rw [nullishOr_nullish _ _ hmiss]
  · intro d hd hne
    show nullishOr (jsField (errorEnvelopeOf (decodeBody opts response)) "doc") _ = d
    rw [hd, nullishOr_some_ne d _ hne]
  · intro hmiss
    show nullishOr (jsField (errorEnvelopeOf (decodeBody opts response)) "doc") _ = _
    rw [nullishOr_nullish _ _ hmiss]
  · intro t ht hne
    show nullishOrOpt (jsField (errorEnvelopeOf (decodeBody opts response)) "trace_id") _ =
      some t
    rw [ht, nullishOrOpt_some_ne t _ hne]
  · intro hmiss
    show nullishOrOpt (jsField (errorEnvelopeOf (decodeBody opts response)) "trace_id") _ = _
    rw [nullishOrOpt_nullish _ _ hmiss]
  · intro hnone
    show parseRetryAfter env response.headers = none
    simp [parseRetryAfter, hnone]
  · intro s n hs hn
    have hs0 : ¬ s = "" := by
      intro hcontra
      subst hcontra
      rw [show jsNumber "" = none from rfl] at hn
      cases hn
    show parseRetryAfter env response.headers = some n
    simp [parseRetryAfter, hs, hs0, hn]
  · intro s t hs hs0 hn hdp
    show parseRetryAfter env response.headers = some (max 0 (jsCeil1000 (t - env.now)))
    simp [parseRetryAfter, hs, hs0, hn, hdp]
  · intro s hs hn hdp
    show parseRetryAfter env response.headers = none
    by_cases hs0 : s = ""
    · simp [parseRetryAfter, hs, hs0]
    · simp [parseRetryAfter, hs, hs0, hn, hdp]

/-- Claim C5, witness: a 429 response with a JSON error envelope and
`Retry-After: 30` throws, with the envelope's code copied verbatim. -/
theorem send_error_construction_witness :
    ∃ e, classifyResponse envC { method := "GET", path := "/heritage/random" }
        ⟨429, "Too Many Requests",
          [("content-type", "application/json"), ("retry-after", "30")],
          some (JsValue.obj [("error", JsValue.obj [("code", JsValue.str "RATE_LIMITED")])]),
          none, none⟩ = SendResult.err e ∧
      e.code = JsValue.str "RATE_LIMITED" ∧ e.retryAfter = some 30 := by
  obtain ⟨e, hcls, _, _, _, _, hcode, _, _, _, _, _, _, _, _, _, _, hnum, _, _⟩ :=
    send_error_construction envC { method := "GET", path := "/heritage/random" }
      ⟨429, "Too Many Requests",
        [("content-type", "application/json"), ("retry-after", "30")],
        some (JsValue.obj [("error", JsValue.obj [("code", JsValue.str "RATE_LIMITED")])]),
        none, none⟩ (by decide) (by decide)
  refine ⟨e, hcls, ?_, ?_⟩
  · exact hcode (JsValue.str "RATE_LIMITED") rfl (by intro h; cases h)
  · exact hnum "30" 30 rfl rfl

/-! ## Claim C4: body pass-through and Content-Type -/

/-- `Headers.has` after `Headers.set` at the same name. -/
theorem hHas_hSet_self (h : HList) (k v : String) : hHas (hSet h k v) k = true := by
  rw [hHas_eq_filter, hSet, filter_spSet_self]
  rfl

/-- The conditional-request headers do not touch Content-Type
(`get`). -/
theorem hGet_applyConditional_ct (h : HList) (inm ims : Option String) :
    hGet (applyConditionalHeaders h inm ims) "Content-Type" = hGet h "Content-Type" := by
  unfold applyConditionalHeaders
  cases inm with
  | none =>
    cases ims with
    | none => rfl
    | some v =>
      dsimp only
      split
      · rfl
      · exact hGet_hSet_ne h "If-Modified-Since" v "Content-Type" (by decide)
  | some v =>
    cases ims with
    | none =>
      dsimp only
      split
      · rfl
      · exact hGet_hSet_ne h "If-None-Match" v "Content-Type" (by decide)
    | some w =>
      dsimp only
      split
      · split
        · rfl
        · exact hGet_hSet_ne h "If-None-Match" v "Content-Type" (by decide)
      · rw [hGet_hSet_ne _ "If-Modified-Since" w "Content-Type" (by decide)]
        split
        · rfl
        · exact hGet_hSet_ne h "If-None-Match" v "Content-Type" (by decide)

/-- The conditional-request headers do not touch Content-Type
(`has`). -/
theorem hHas_applyConditional_ct (h : HList) (inm ims : Option String) :
    hHas (applyConditionalHeaders h inm ims) "Content-Type" = hHas h "Content-Type" := by
  unfold applyConditionalHeaders
  cases inm with
  | none =>
    cases ims with
    | none => rfl
    | some v =>
      dsimp only
      split
      · rfl
      · exact hHas_hSet_ne h "If-Modified-Since" v "Content-Type" (by decide)
  | some v =>
    cases ims with
    | none =>
      dsimp only
      split
      · rfl
      · exact hHas_hSet_ne h "If-None-Match" v "Content-Type" (by decide)
    | some w =>
      dsimp only
      split
      · split
        · rfl
        · exact hHas_hSet_ne h "If-None-Match" v "Content-Type" (by decide)
      · rw [hHas_hSet_ne _ "If-Modified-Since" w "Content-Type" (by decide)]
        split
        · rfl
        · exact hHas_hSet_ne h "If-None-Match" v "Content-Type" (by decide)

/-- Claim C4 (amended): a string, URL-encoded form, multipart form,
blob, or raw byte buffer body is transmitted untouched, and any other
non-null body is transmitted as its JSON encoding.  Absent an explicit
Content-Type override, the `application/json; charset=utf-8`
Content-Type is set exactly when a body is present and the body is not
a `FormData`/`Blob`/`ArrayBuffer`/string payload — which, unlike the
claim's "recognized binary/form/string payload" list, EXCLUDES
`URLSearchParams`: a URL-encoded form body passes through untouched
yet still gets the JSON Content-Type, because `prepareHeaders` omits
`URLSearchParams` from its exclusion check. -/
theorem send_body_and_contentType (cfg : ClientConfig) (opts : RequestDescriptor) :
    (∀ b, opts.body = some b → isRawBody b = true →
      (sendRequest cfg opts).payload = Payload.raw b) ∧
    (∀ v, opts.body = some (BodyVal.jsonVal v) →
      (sendRequest cfg opts).payload = Payload.jsonEncoded v) ∧
    (opts.body = none → (sendRequest cfg opts).payload = Payload.undef) ∧
    (hHas (hMerge cfg.baseHeaders opts.headers) "Content-Type" = false →
      (hGet (sendRequest cfg opts).headers "Content-Type" =
          some "application/json; charset=utf-8" ↔
        ∃ b, opts.body = some b ∧ bodyTriggersJsonContentType b = true)) := by
  refine ⟨?_, ?_, ?_, ?_⟩
  · intro b hb hraw
    cases b with
    | jsonVal v => simp [isRawBody] at hraw
    | str s => simp [sendRequest, hb, preparePayload]
    | searchParams sp => simp [sendRequest, hb, preparePayload]
    | formData entries => simp [sendRequest, hb, preparePayload]
    | blob bytes => simp [sendRequest, hb, preparePayload]
    | arrayBuffer bytes => simp [sendRequest, hb, preparePayload]
  · intro v hb
    simp [sendRequest, hb, preparePayload]
  · intro hb
    simp [sendRequest, hb, preparePayload]
  · intro hno
    cases hb : opts.body with
    | none =>
      have hprep : prepareHeaders cfg opts.headers opts.body =
          hMerge cfg.baseHeaders opts.headers := by
        rw [hb]
        rfl
      have hfinal : (sendRequest cfg opts).headers =
          applyConditionalHeaders (hMerge cfg.baseHeaders opts.headers)
            opts.ifNoneMatch opts.ifModifiedSince := by
        simp [sendRequest, hb, preparePayload, ← hprep, hb]
      rw [hfinal, hGet_applyConditional_ct,
        hGet_eq_none_of_not_has _ _ hno]
      constructor
      · intro hcontra
        cases hcontra
      · rintro ⟨b, hcontra, _⟩
        simp at hcontra
    | some b =>
      cases ht : bodyTriggersJsonContentType b with
      | true =>
        have hcond : ¬ hHas (hMerge cfg.baseHeaders opts.headers) "Content-Type" = true ∧
            bodyTriggersJsonContentType b = true :=
          ⟨by rw [hno]; exact Bool.false_ne_true, ht⟩
        have hprep : prepareHeaders cfg opts.headers opts.body =
            hSet (hMerge cfg.baseHeaders opts.headers) "Content-Type"
              "application/json; charset=utf-8" := by
          rw [hb]
          show (if ¬ hHas (hMerge cfg.baseHeaders opts.headers) "Content-Type" = true ∧
                bodyTriggersJsonContentType b = true then
              hSet (hMerge cfg.baseHeaders opts.headers) "Content-Type"
                "application/json; charset=utf-8"
            else hMerge cfg.baseHeaders opts.headers) =
            hSet (hMerge cfg.baseHeaders opts.headers) "Content-Type"
              "application/json; charset=utf-8"
          rw [if_pos hcond]
        have hgetcond : hGet (applyConditionalHeaders
            (prepareHeaders cfg opts.headers opts.body) opts.ifNoneMatch
            opts.ifModifiedSince) "Content-Type" = some "application/json; charset=utf-8" := by
          rw [hGet_applyConditional_ct, hprep, hGet_hSet_self]
        have hhascond : hHas (applyConditionalHeaders
            (prepareHeaders cfg opts.headers opts.body) opts.ifNoneMatch
            opts.ifModifiedSince) "Content-Type" = true := by
          rw [hHas_applyConditional_ct, hprep, hHas_hSet_self]
        have hfinal : (sendRequest cfg opts).headers =
            applyConditionalHeaders (prepareHeaders cfg opts.headers opts.body)
              opts.ifNoneMatch opts.ifModifiedSince := by
          cases b with
          | jsonVal v =>
            rw [hb] at hhascond
            simp [sendRequest, hb, preparePayload, hhascond]
          | str s => simp [sendRequest, hb, preparePayload]
          | searchParams sp => simp [sendRequest, hb, preparePayload]
          | formData entries => simp [sendRequest, hb, preparePayload]
          | blob bytes => simp [sendRequest, hb, preparePayload]
          | arrayBuffer bytes => simp [sendRequest, hb, preparePayload]
        rw [hfinal, hgetcond]
        refine ⟨fun _ => ⟨b, ?_, ht⟩, fun _ => rfl⟩
        simp
      | false =>
        have hprep : prepareHeaders cfg opts.headers opts.body =
            hMerge cfg.baseHeaders opts.headers := by
          rw [hb]
          show (if ¬ hHas (hMerge cfg.baseHeaders opts.headers) "Content-Type" = true ∧
                bodyTriggersJsonContentType b = true then
              hSet (hMerge cfg.baseHeaders opts.headers) "Content-Type"
                "application/json; charset=utf-8"
            else hMerge cfg.baseHeaders opts.headers) =
            hMerge cfg.baseHeaders opts.headers
          rw [if_neg (by
            rintro ⟨_, hcontra⟩
            rw [ht] at hcontra
            cases hcontra)]
        have hfinal : (sendRequest cfg opts).headers =
            applyConditionalHeaders (prepareHeaders cfg opts.headers opts.body)
              opts.ifNoneMatch opts.ifModifiedSince := by
          cases b with
          | jsonVal v => simp [bodyTriggersJsonContentType] at ht
          | str s => simp [sendRequest, hb, preparePayload]
          | searchParams sp => simp [bodyTriggersJsonContentType] at ht
          | formData entries => simp [sendRequest, hb, preparePayload]
          | blob bytes => simp [sendRequest, hb, preparePayload]
          | arrayBuffer bytes => simp [sendRequest, hb, preparePayload]
        rw [hfinal, hGet_applyConditional_ct, hprep, hGet_eq_none_of_not_has _ _ hno]
        constructor
        · intro hcontra
          cases hcontra
        · rintro ⟨b2, hb2, ht2⟩
          obtain rfl : b = b2 := Option.some.inj hb2
          rw [ht] at ht2
          cases ht2

/-- Claim C4, counterexample: a `URLSearchParams` body — a recognized
URL-encoded form payload that passes through to the transport
untouched — still gets `Content-Type: application/json; charset=utf-8`
with no override present, because `prepareHeaders` omits
`URLSearchParams` from its exclusion list. -/
theorem send_body_contentType_counterexample :
    mkClient {} = .ok testConfig ∧
    isRawBody (BodyVal.searchParams [("a", "b")]) = true ∧
    (sendRequest testConfig
        { method := "POST", path := "/citation/report",
          body := some (BodyVal.searchParams [("a", "b")]) }).payload =
      Payload.raw (BodyVal.searchParams [("a", "b")]) ∧
    hGet (sendRequest testConfig
        { method := "POST", path := "/citation/report",
          body := some (BodyVal.searchParams [("a", "b")]) }).headers "Content-Type" =
      some "application/json; charset=utf-8" :=
  ⟨rfl, rfl, rfl, rfl⟩

/-- Claim C4, witness for the amended statement: with the default
configuration and a plain-object body, the JSON Content-Type is set. -/
theorem send_body_and_contentType_witness :
    hGet (sendRequest testConfig
        { method := "POST", path := "/ai/similar",
          body := some (BodyVal.jsonVal (JsValue.obj [])) }).headers "Content-Type" =
      some "application/json; charset=utf-8" :=
  ((send_body_and_contentType testConfig
      { method := "POST", path := "/ai/similar",
        body := some (BodyVal.jsonVal (JsValue.obj [])) }).2.2.2 (by decide)).mpr
    ⟨BodyVal.jsonVal (JsValue.obj []), rfl, rfl⟩

end InheritageSDK
